import Mathlib

/-!
Shallow embedding of the product pipeline of the scrapper repository
(src/processing/normalizer.py, src/scraper/base.py, src/scraper/amazon.py):
normalization, deduplication, quality scoring, curation, and the Amazon
page-parsing price chain.  Prices are modelled as rationals, Python dicts
as insertion-ordered association lists, and missing dict keys as Option.
-/

namespace Scrapper


/-- First value bound to key k in an insertion-ordered association list
(Python dict lookup: keys are unique in a real dict). -/
def lookupS : List (String × String) → String → Option String
  | [], _ => none
  | (k, v) :: rest, key => if k = key then some v else lookupS rest key

/-- Python dict assignment normalized[k] = v: overwrite in place if the key
exists (keeping its position), else append. -/
def dictSet : List (String × String) → String → String → List (String × String)
  | [], k, v => [(k, v)]
  | (k1, v1) :: rest, k, v =>
    if k1 = k then (k1, v) :: rest else (k1, v1) :: dictSet rest k v

/-- Collapse every run of whitespace to a single space, tracking whether the
previous character was whitespace: re.sub(r'\s+', ' ', s). -/
def collapseWSGo (prevWS : Bool) : List Char → List Char
  | [] => []
  | c :: rest =>
    if c.isWhitespace then
      if prevWS then collapseWSGo true rest
      else ' ' :: collapseWSGo true rest
    else c :: collapseWSGo false rest

def collapseWS (cs : List Char) : List Char := collapseWSGo false cs

/-- Does the character list start with the given needle? -/
def startsWithL : List Char → List Char → Bool
  | [], _ => true
  | _ :: _, [] => false
  | c :: cs, d :: ds => c == d && startsWithL cs ds

/-- Python substring test: needle in hay (contiguous substring). -/
def containsL (needle : List Char) : List Char → Bool
  | [] => needle.isEmpty
  | c :: cs => startsWithL needle (c :: cs) || containsL needle cs

/-- Python s1 in s2 on strings. -/
def strContains (hay sub : String) : Bool := containsL sub.toList hay.toList

/-- Python s.lower() (ASCII). -/
def pyLower (s : String) : String := String.mk (s.toList.map Char.toLower)

/-- Python s.strip(): drop leading and trailing whitespace. -/
def pyStrip (s : String) : String :=
  String.mk (((s.toList.dropWhile Char.isWhitespace).reverse.dropWhile
    Char.isWhitespace).reverse)

/-- Numeric value of a digit list, most significant first. -/
def natOfDigits (cs : List Char) : ℕ := cs.foldl (fun n c => n * 10 + (c.toNat - 48)) 0

/-- Python float(s) restricted to strings of digits and dots (the only
characters the price cleaners can leave): succeeds iff there is at least one
digit and at most one dot; float("1.") = 1.0 and float(".5") = 0.5. -/
def parse_float (cs : List Char) : Option ℚ :=
  if !(cs.all fun c => c.isDigit || c == '.') then none
  else if cs.filter Char.isDigit = [] then none
  else
    match cs.splitOn '.' with
    | [ds] => some (natOfDigits ds)
    | [ip, fp] => some ((natOfDigits ip : ℚ) + (natOfDigits fp : ℚ) / 10 ^ fp.length)
    | _ => none

/-- DataNormalizer.normalize_price: drop every character that is not a digit
or a dot, then parse; empty input or parse failure yields none. -/
def normalize_price (s : String) : Option ℚ :=
  if s = "" then none
  else parse_float (s.toList.filter fun c => c.isDigit || c == '.')

/-- PremiumBaseScraper._extract_price: keep digits, dots and commas; with both
a comma and a dot present the commas are thousands separators; with only
commas, a single comma whose tail has at most two characters is a decimal
separator, otherwise commas are dropped; then parse as float. -/
def extract_price (s : String) : Option ℚ :=
  if s = "" then none
  else
    let cs := s.toList.filter fun c => c.isDigit || c == '.' || c == ','
    let cs2 :=
      if cs.contains ',' && cs.contains '.' then
        cs.filter fun c => !(c == ',')
      else if cs.contains ',' then
        match cs.splitOn ',' with
        | [_, p2] =>
          if p2.length ≤ 2 then cs.map (fun c => if c == ',' then '.' else c)
          else cs.filter fun c => !(c == ',')
        | _ => cs.filter fun c => !(c == ',')
      else cs
    parse_float cs2

/-- DataNormalizer.normalize_availability's phrase table. -/
def availability_map : List (String × String) :=
  [("in stock", "in_stock"), ("available", "in_stock"), ("in-stock", "in_stock"),
   ("stock", "in_stock"),
   ("out of stock", "out_of_stock"), ("out-of-stock", "out_of_stock"),
   ("unavailable", "out_of_stock"), ("not available", "out_of_stock"),
   ("pre-order", "pre_order"), ("preorder", "pre_order"), ("coming soon", "pre_order"),
   ("limited stock", "limited_stock"), ("low stock", "limited_stock"),
   ("few left", "limited_stock")]

/-- DataNormalizer.normalize_availability: lowercase and strip, then exact
lookup in the phrase table, defaulting to "unknown". -/
def normalize_availability (availability : String) : String :=
  if availability = "" then "unknown"
  else (lookupS availability_map (pyStrip (pyLower availability))).getD "unknown"

/-- Key normalization used by normalize_specifications:
key.lower().strip() then whitespace collapse. -/
def normSpecKey (k : String) : String :=
  String.mk (collapseWS (pyStrip (pyLower k)).toList)

/-- The loop body of DataNormalizer.normalize_specifications: strip the
value and, when it is non-empty, assign it under the normalized key (a later
entry overwrites an earlier one whose key normalizes the same). -/
def specStep (acc : List (String × String)) (kv : String × String) :
    List (String × String) :=
  if pyStrip kv.2 ≠ "" then dictSet acc (normSpecKey kv.1) (pyStrip kv.2) else acc

/-- DataNormalizer.normalize_specifications: fold the entries in insertion
order into a fresh dict. -/
def normalize_specifications (specs : List (String × String)) : List (String × String) :=
  specs.foldl specStep []

/-- The value the amended C10 predicts for a key of the normalized dict: the
last entry whose key normalizes to it and whose stripped value is non-empty
(written from the amended claim, for comparison with the code). -/
def lastNonEmptyFor (specs : List (String × String)) (k : String) : Option String :=
  (specs.filterMap fun kv =>
    if normSpecKey kv.1 = k ∧ pyStrip kv.2 ≠ "" then some (pyStrip kv.2) else none).getLast?

/-- Option fallback (a if some, else b). -/
def orO (a b : Option String) : Option String :=
  match a with
  | some v => some v
  | none => b

/-- A product record.  Fields looked up with dict.get in the source are
Option-valued (none = key absent / None); string and list fields use the
Python falsy values "" and [] for absent, which the source treats the same. -/
structure Product where
  title : String := ""
  brand : String := ""
  category : String := ""
  description : String := ""
  bullet_points : List String := []
  current_price : Option ℚ := none
  original_price : Option ℚ := none
  availability : Option String := none
  primary_image_url : String := ""
  additional_images : List String := []
  specifications : List (String × String) := []
  features : List String := []
  rating : Option ℚ := none
  review_count : Option ℕ := none
  data_quality_score : Option ℚ := none
  duplicate_count : Option ℕ := none
  is_curated : Option Bool := none
  curation_score : Option ℚ := none
  curation_reason : Option String := none
deriving DecidableEq, Repr

/-- Python truthiness of an optional number: None and 0 are falsy. -/
def truthyQ (x : Option ℚ) : Bool :=
  match x with
  | none => false
  | some v => !(v == 0)

/-- Python truthiness of an optional count. -/
def truthyN (x : Option ℕ) : Bool :=
  match x with
  | none => false
  | some v => !(v == 0)

/-- DataQualityScorer.calculate_quality_score: fixed weights for
presence/non-emptiness checks, capped at 1.  Note the availability check is
product.get('availability') != 'unknown', which is also true when the key is
absent (None != 'unknown' in Python). -/
def calculate_quality_score (p : Product) : ℚ :=
  let score :=
    (if p.title ≠ "" then 15/100 else 0)
    + (if p.brand ≠ "" then 10/100 else 0)
    + (if p.description ≠ "" ∨ p.bullet_points ≠ [] then 10/100 else 0)
    + (if p.category ≠ "" then 5/100 else 0)
    + (if truthyQ p.current_price then 15/100 else 0)
    + (if p.availability ≠ some "unknown" then 10/100 else 0)
    + (if p.primary_image_url ≠ "" then 10/100 else 0)
    + (if p.additional_images ≠ [] then 5/100 else 0)
    + (if p.specifications ≠ [] then 8/100 else 0)
    + (if p.features ≠ [] then 7/100 else 0)
    + (if truthyQ p.rating then 3/100 else 0)
    + (if truthyN p.review_count then 2/100 else 0)
  min score 1

/-- ProductDeduplicator.similarity_threshold. -/
def similarity_threshold : ℚ := 85/100

/-- ProductDeduplicator._price_similarity: 0 when either price is falsy,
else max(0, 1 - |p1-p2| / max(p1,p2)). -/
def price_similarity (p1 p2 : Option ℚ) : ℚ :=
  match p1, p2 with
  | some a, some b => if a = 0 ∨ b = 0 then 0 else max 0 (1 - |a - b| / max a b)
  | _, _ => 0

/-- ProductDeduplicator._specifications_similarity, parameterized by ts,
the text-similarity function _text_similarity (SequenceMatcher-based; kept
abstract): average of ts over the specification keys common to both dicts. -/
def specifications_similarity (ts : String → String → ℚ)
    (s1 s2 : List (String × String)) : ℚ :=
  if s1 = [] ∨ s2 = [] then 0
  else
    let keys2 := s2.map Prod.fst
    let common := ((s1.map Prod.fst).eraseDups).filter fun k => keys2.contains k
    if common = [] then 0
    else (common.map fun k => ts ((lookupS s1 k).getD "") ((lookupS s2 k).getD "")).sum
      / common.length

/-- ProductDeduplicator.calculate_similarity: weighted sum of the four
component scores (title 0.4, brand 0.3, price 0.2, specifications 0.1),
parameterized by the abstract text-similarity ts. -/
def calculate_similarity (ts : String → String → ℚ) (p1 p2 : Product) : ℚ :=
  ts p1.title p2.title * (4/10)
  + ts p1.brand p2.brand * (3/10)
  + price_similarity p1.current_price p2.current_price * (2/10)
  + specifications_similarity ts p1.specifications p2.specifications * (1/10)

/-- The loop of ProductDeduplicator.find_duplicates over the enumerated
product list, carrying the set of already-processed indices: a not-yet
processed record collects every later not-yet-processed record whose
similarity to it reaches the threshold; groups of size 1 are not emitted
(and then nothing is marked processed).  The source also adds i itself to
processed when a group is emitted; that is dropped here because the loop
never revisits an index it has already passed. -/
def dupGo (sim : Product → Product → ℚ) (θ : ℚ) :
    List (ℕ × Product) → List ℕ → List (List Product)
  | [], _ => []
  | (i, p) :: rest, pr =>
    if i ∈ pr then dupGo sim θ rest pr
    else
      let ms := rest.filter fun jq => !(decide (jq.1 ∈ pr)) && decide (θ ≤ sim p jq.2)
      if ms.isEmpty then dupGo sim θ rest pr
      else (p :: ms.map Prod.snd) :: dupGo sim θ rest (pr ++ ms.map Prod.fst)

/-- ProductDeduplicator.find_duplicates. -/
def find_duplicates (ts : String → String → ℚ) (products : List Product) :
    List (List Product) :=
  dupGo (calculate_similarity ts) similarity_threshold products.enum []

/-- The grouping pass as the spec describes it, without index bookkeeping:
process records in input order; the head of the list collects every later
record whose similarity to it meets the threshold; collected records are
consumed (removed from further consideration); only groups with at least one
match are returned. -/
def greedy_spec (sim : Product → Product → ℚ) (θ : ℚ) (l : List Product) :
    List (List Product) :=
  match l with
  | [] => []
  | p :: rest =>
    let ms := rest.filter fun q => decide (θ ≤ sim p q)
    let rest2 := rest.filter fun q => !(decide (θ ≤ sim p q))
    if ms.isEmpty then greedy_spec sim θ rest
    else (p :: ms) :: greedy_spec sim θ rest2
termination_by l.length
decreasing_by
all_goals simp only [List.length_cons]
· exact Nat.lt_succ_self _
· exact Nat.lt_succ_of_le (List.length_filter_le _ _)

/-- p.get('data_quality_score', 0). -/
def dqs (p : Product) : ℚ := p.data_quality_score.getD 0

/-- Python max(group, key=...) starting from a first candidate: a later
element replaces the current best only when strictly greater, so the first
occurrence of the maximal score wins. -/
def pickBest (best : Product) : List Product → Product
  | [] => best
  | p :: rest => pickBest (if dqs best < dqs p then p else best) rest

/-- Append the items of add that are not already present (list union keeping
base order, used for additional_images and features). -/
def mergeList (base add : List String) : List String :=
  add.foldl (fun acc x => if acc.contains x then acc else acc ++ [x]) base

/-- Union of specification dicts: add an entry only when its key is absent
and its value non-empty (the base keeps its value on collision). -/
def mergeSpecs (base add : List (String × String)) : List (String × String) :=
  add.foldl
    (fun acc kv => if !(lookupS acc kv.1).isSome && !(kv.2 == "") then acc ++ [kv] else acc)
    base

/-- One step of the merge loop body of ProductDeduplicator.merge_duplicates. -/
def mergeInto (m p : Product) : Product :=
  { m with
    additional_images := mergeList m.additional_images p.additional_images,
    features := mergeList m.features p.features,
    specifications := mergeSpecs m.specifications p.specifications }

/-- The guarded body of the merge loop of
ProductDeduplicator.merge_duplicates.  The source skips the member equal to
best_product; because merged is a shallow copy whose list fields alias the
base, that comparison is against the current merged state, modelled by the
accumulator equality test (merging such a member is a no-op in any case). -/
def mergeStep (m q : Product) : Product := if q = m then m else mergeInto m q

def merge_duplicates (group : List Product) : Option Product :=
  match group with
  | [] => none
  | [p] => some p
  | p :: rest =>
    let best := pickBest p rest
    let merged := (p :: rest).foldl mergeStep best
    some { merged with duplicate_count := some (p :: rest).length }

/-- The non-merged (scalar) fields of a record, used to state that the merge
loop takes everything but the three union fields from the base. -/
def scalars (p : Product) :=
  (p.title, p.brand, p.category, p.description, p.bullet_points, p.current_price,
   p.original_price, p.availability, p.primary_image_url, p.rating, p.review_count,
   p.data_quality_score, p.duplicate_count, p.is_curated, p.curation_score,
   p.curation_reason)

/-- The claim's "base member" predicate: best occurs in the group, every
member scores at most dqs best, and every member strictly before the
occurrence scores strictly less (first occurrence wins ties). -/
def is_first_max (group : List Product) (best : Product) : Prop :=
  (∃ pre post, group = pre ++ best :: post ∧ ∀ q ∈ pre, dqs q < dqs best) ∧
  ∀ q ∈ group, dqs q ≤ dqs best

/-- A curation rule condition: the closed set of predicate keys understood by
CurationEngine._check_condition; an absent key imposes no constraint. -/
structure Cond where
  min_rating : Option ℚ := none
  min_reviews : Option ℕ := none
  availability : Option String := none
  exclude_categories : Option (List String) := none
deriving DecidableEq, Repr

structure Rule where
  name : String
  condition : Cond
  action : String
  priority : ℕ
deriving DecidableEq, Repr

/-- CurationEngine._check_condition: all present constraint keys must pass.
min_rating / min_reviews require a truthy value at least the bound;
availability requires exact equality; exclude_categories fails when any
excluded string is a substring of the lowercased category. -/
def check_condition (p : Product) (c : Cond) : Bool :=
  (match c.min_rating with
   | none => true
   | some v => truthyQ p.rating && decide (v ≤ p.rating.getD 0)) &&
  (match c.min_reviews with
   | none => true
   | some v => truthyN p.review_count && decide (v ≤ p.review_count.getD 0)) &&
  (match c.availability with
   | none => true
   | some v => p.availability == some v) &&
  (match c.exclude_categories with
   | none => true
   | some lst => !(lst.any fun ex => strContains (pyLower p.category) ex))

/-- CurationEngine.default_rules. -/
def default_rules : List Rule :=
  [⟨"minimum_rating", { min_rating := some 4 }, "include", 1⟩,
   ⟨"minimum_reviews", { min_reviews := some 10 }, "include", 2⟩,
   ⟨"in_stock_only", { availability := some "in_stock" }, "include", 3⟩,
   ⟨"exclude_adult_content", { exclude_categories := some ["adult", "mature"] }, "exclude", 1⟩]

/-- Stable insertion into a priority-sorted rule list: the new rule goes
before the first rule of priority not below its own, so earlier rules of
equal priority stay first (Python sorted is stable). -/
def insertRule (r : Rule) : List Rule → List Rule
  | [] => [r]
  | s :: rest => if s.priority < r.priority then s :: insertRule r rest else r :: s :: rest

/-- sorted(rules, key=lambda x: x['priority']): stable ascending sort. -/
def sort_rules : List Rule → List Rule
  | [] => []
  | r :: rest => insertRule r (sort_rules rest)

structure EvalResult where
  action : String
  score : ℚ
  reason : String
deriving DecidableEq, Repr

/-- The rule loop of CurationEngine._evaluate_product: a matching exclude
rule returns immediately (modelled as the error branch); a matching include
adds 1.0 and a reason, a matching flag adds 0.5 and a reason; any other
action is ignored. -/
def eval_loop (p : Product) :
    List Rule → ℚ → List String → Except EvalResult (ℚ × List String)
  | [], score, reasons => .ok (score, reasons)
  | r :: rest, score, reasons =>
    if check_condition p r.condition then
      if r.action = "include" then
        eval_loop p rest (score + 1) (reasons ++ ["Passed: " ++ r.name])
      else if r.action = "exclude" then
        .error ⟨"exclude", 0, "Excluded by: " ++ r.name⟩
      else if r.action = "flag" then
        eval_loop p rest (score + 1/2) (reasons ++ ["Flagged: " ++ r.name])
      else eval_loop p rest score reasons
    else eval_loop p rest score reasons

/-- '; '.join(reasons). -/
def joinSemicolon : List String → String
  | [] => ""
  | x :: xs => xs.foldl (fun acc s => acc ++ "; " ++ s) x

/-- CurationEngine._evaluate_product: run the rules in ascending priority
order; absent a short-circuit, the final action is decided by the
accumulated score (include at 2.0, flag at 1.0, else exclude) and the score
is normalized by the rule count. -/
def evaluate_product (p : Product) (rules : List Rule) : EvalResult :=
  match eval_loop p (sort_rules rules) 0 [] with
  | .error r => r
  | .ok (score, reasons) =>
    { action := if 2 ≤ score then "include" else if 1 ≤ score then "flag" else "exclude",
      score := if rules.isEmpty then 0 else score / rules.length,
      reason := if reasons.isEmpty then "No rules matched" else joinSemicolon reasons }

/-- CurationEngine.apply_curation_rules: annotate and keep records whose
final action is include (is_curated=True) or flag (is_curated=False); drop
excluded records.  Passing none for rules selects default_rules. -/
def apply_curation_rules (products : List Product) (rules : Option (List Rule)) :
    List Product :=
  let rs := rules.getD default_rules
  products.filterMap fun p =>
    let res := evaluate_product p rs
    if res.action = "include" then
      some { p with is_curated := some true, curation_score := some res.score,
                    curation_reason := some res.reason }
    else if res.action = "flag" then
      some { p with is_curated := some false, curation_score := some res.score,
                    curation_reason := some res.reason }
    else none

/-- Round half to even at integer precision (Python round on an exact
value). -/
def rhe (q : ℚ) : ℤ :=
  if q - ⌊q⌋ < 1/2 then ⌊q⌋
  else if 1/2 < q - ⌊q⌋ then ⌊q⌋ + 1
  else if Even ⌊q⌋ then ⌊q⌋ else ⌊q⌋ + 1

/-- Python round(x, 2). -/
def round2 (q : ℚ) : ℚ := (rhe (q * 100) : ℚ) / 100

/-- The discount computation of PremiumAmazonScraper._parse_product_page:
only when both price and original_price are truthy (present and nonzero),
discount_percentage = round(((original - price) / original) * 100, 2);
there is no original >= price consistency check. -/
def compute_discount (price original : Option ℚ) : Option ℚ :=
  match price, original with
  | some p, some o =>
    if p ≠ 0 ∧ o ≠ 0 then some (round2 ((o - p) / o * 100)) else none
  | _, _ => none

/-- The parsed DOM of a product page, abstracted to what the extractors
observe: the text of the first element matching each CSS selector, if any
(soup.select_one(sel).get_text()). -/
structure Soup where
  selMatches : List (String × String)
deriving DecidableEq, Repr

/-- soup.select_one(sel) followed by get_text(). -/
def selectOne (s : Soup) (sel : String) : Option String := lookupS s.selMatches sel

/-- PremiumBaseScraper._clean_text. -/
def clean_text (s : String) : String :=
  if s = "" then "" else pyStrip (String.mk (collapseWS s.toList))

def title_selectors : List String :=
  ["#productTitle", "h1.a-size-large", ".product-title",
   "h1[data-automation-id=\"product-title\"]"]

def price_selectors : List String :=
  [".a-price-whole", ".a-offscreen", "#priceblock_dealprice", "#priceblock_ourprice",
   ".a-price-range .a-price-whole", ".a-price .a-offscreen",
   "[data-automation-id=\"product-price\"]"]

def availability_selectors : List String :=
  ["#availability span", ".a-size-medium.a-color-success",
   ".a-size-medium.a-color-price", "[data-automation-id=\"availability\"]",
   ".availability"]

/-- PremiumAmazonScraper._extract_title: first matching selector wins, text
cleaned; empty string when nothing matches. -/
def extractTitleGo (s : Soup) : List String → String
  | [] => ""
  | sel :: rest =>
    match selectOne s sel with
    | some t => clean_text t
    | none => extractTitleGo s rest

def amazon_extract_title (s : Soup) : String := extractTitleGo s title_selectors

/-- PremiumAmazonScraper._extract_availability: on the first selector that
matches, classify by substring of the stripped lowercased text; fall through
to the next selector when no phrase matches; default "unknown". -/
def extractAvailGo (s : Soup) : List String → String
  | [] => "unknown"
  | sel :: rest =>
    match selectOne s sel with
    | some t =>
      let a := pyLower (pyStrip t)
      if strContains a "in stock" then "in_stock"
      else if strContains a "out of stock" then "out_of_stock"
      else if strContains a "pre-order" then "pre_order"
      else if strContains a "limited" then "limited_stock"
      else extractAvailGo s rest
    | none => extractAvailGo s rest

def amazon_extract_availability (s : Soup) : String := extractAvailGo s availability_selectors

/-- PremiumAmazonScraper._extract_price specialized to a str receiver.  The
method is written for a soup, but its body calls self._extract_price(price_text)
on the extracted price text, and dynamic dispatch re-enters this same
override (shadowing the text-parsing helper of the base class) with a str
receiver; the first loop iteration then evaluates
price_text.select_one(selector), and a Python str has no select_one, so with
a non-empty selector list an AttributeError is raised before anything is
returned. -/
def amazonExtractPriceStr : List String → Except String (Option ℚ)
  | [] => .ok none
  | _ :: _ => .error "AttributeError: str object has no attribute select_one"

/-- PremiumAmazonScraper._extract_price on a soup: try the selectors in
order; on a match, self._extract_price(price_text) re-enters the override
with a str receiver (amazonExtractPriceStr, always over the full selector
list) and the result is returned if truthy, else the loop continues. -/
def amazonExtractPriceGo (s : Soup) : List String → Except String (Option ℚ)
  | [] => .ok none
  | sel :: rest =>
    match selectOne s sel with
    | some _ =>
      match amazonExtractPriceStr price_selectors with
      | .error e => .error e
      | .ok pr => if truthyQ pr then .ok pr else amazonExtractPriceGo s rest
    | none => amazonExtractPriceGo s rest

def amazon_extract_price (s : Soup) : Except String (Option ℚ) :=
  amazonExtractPriceGo s price_selectors

/-- The title/price/availability slice of
PremiumAmazonScraper._parse_product_page: build the record field by field
from the extractor chains; an exception from an extractor propagates (the
source logs and re-raises). -/
def parse_product_page (s : Soup) : Except String Product :=
  match amazon_extract_price s with
  | .error e => .error e
  | .ok pr =>
    .ok { title := amazon_extract_title s, current_price := pr,
          availability := some (amazon_extract_availability s) }

/-- The three default include rules, as in the C7 scenario (min_rating 4.0,
min_reviews 10, in_stock_only), without the exclusion rule. -/
def three_include_rules : List Rule :=
  [⟨"minimum_rating", { min_rating := some 4 }, "include", 1⟩,
   ⟨"minimum_reviews", { min_reviews := some 10 }, "include", 2⟩,
   ⟨"in_stock_only", { availability := some "in_stock" }, "include", 3⟩]

/-- The C7 scenario record: rating 4.5, 50 reviews, in stock. -/
def sample_record : Product :=
  { rating := some (9/2), review_count := some 50, availability := some "in_stock" }

/-- Concrete two-member group for the C2 witness: the second member has the
higher quality score and so becomes the base. -/
def merge_sample_a : Product :=
  { title := "A", data_quality_score := some 0,
    additional_images := ["i1", "i2"], features := ["f1"],
    specifications := [("k1", "v1"), ("k2", "")] }

def merge_sample_b : Product :=
  { title := "B", data_quality_score := some 1,
    additional_images := ["i2", "i3"],
    specifications := [("k1", "w1"), ("k3", "v3")] }

/-- Text-similarity instance for the C1 threshold scenarios: 1 for equal
strings, else 0 (as SequenceMatcher gives on equal/disjoint strings). -/
def eq_text_sim : String → String → ℚ := fun a b => if a = b then 1 else 0

/-- Two records whose similarity under eq_text_sim is exactly 0.85:
title and brand match (0.4 + 0.3), price similarity 3/4 contributes 0.15. -/
def dup_a : Product := { title := "t", brand := "b", current_price := some 4 }

def dup_b : Product := { title := "t", brand := "b", current_price := some 3 }

/-- Two records whose similarity under eq_text_sim is exactly 0.8499. -/
def dup_a2 : Product := { title := "t", brand := "b", current_price := some 2000 }

def dup_c : Product := { title := "t", brand := "b", current_price := some 1499 }

/-- Text similarity making ta~tb and tb~tc similar but ta~tc dissimilar, for
the no-transitive-closure scenario. -/
def chain_sim : String → String → ℚ := fun x y =>
  if x = y then 1
  else if (x = "ta" ∧ y = "tb") ∨ (x = "tb" ∧ y = "tc") then 1
  else 0

def chain_a : Product := { title := "ta", brand := "b", current_price := some 5 }

def chain_b : Product := { title := "tb", brand := "b", current_price := some 5 }

def chain_c : Product := { title := "tc", brand := "b", current_price := some 5 }

/-! ## Lemmas about the association-list primitives -/

theorem getD_lookupS_mem (l : List (String × String)) (k d : String) :
    (lookupS l k).getD d ∈ d :: l.map Prod.snd := by
  induction l with
  | nil => simp [lookupS]
  | cons kv rest ih =>
    obtain ⟨k1, v1⟩ := kv
    by_cases h : k1 = k
    · simp [lookupS, h]
    · simp only [lookupS, if_neg h, List.map_cons]
      have := ih
      simp only [List.mem_cons] at this ⊢
      tauto

theorem mem_dictSet (l : List (String × String)) (k v : String)
    (kv : String × String) (h : kv ∈ dictSet l k v) : kv ∈ l ∨ kv = (k, v) := by
  induction l with
  | nil => simpa [dictSet] using h
  | cons kv1 rest ih =>
    obtain ⟨k1, v1⟩ := kv1
    by_cases hk : k1 = k
    · simp only [dictSet, if_pos hk, List.mem_cons] at h
      rcases h with h | h
      · right; rw [h, hk]
      · left; simp [h]
    · simp only [dictSet, if_neg hk, List.mem_cons] at h
      rcases h with h | h
      · left; simp [h]
      · rcases ih h with h2 | h2
        · left; simp [h2]
        · right; exact h2

theorem lookup_dictSet_self (l : List (String × String)) (k v : String) :
    lookupS (dictSet l k v) k = some v := by
  induction l with
  | nil => simp [dictSet, lookupS]
  | cons kv1 rest ih =>
    obtain ⟨k1, v1⟩ := kv1
    by_cases hk : k1 = k
    · simp [dictSet, lookupS, hk]
    · simp [dictSet, lookupS, hk, ih]

theorem lookup_dictSet_other (l : List (String × String)) (k v key : String)
    (h : key ≠ k) : lookupS (dictSet l k v) key = lookupS l key := by
  induction l with
  | nil =>
    have hne : ¬k = key := fun he => h he.symm
    simp [dictSet, lookupS, hne]
  | cons kv1 rest ih =>
    obtain ⟨k1, v1⟩ := kv1
    by_cases hk : k1 = k
    · have hne : ¬k1 = key := by rw [hk]; exact fun he => h he.symm
      rw [dictSet, if_pos hk, lookupS, lookupS, if_neg hne, if_neg hne]
    · rw [dictSet, if_neg hk, lookupS, lookupS]
      by_cases hk2 : k1 = key
      · rw [if_pos hk2, if_pos hk2]
      · rw [if_neg hk2, if_neg hk2, ih]

theorem orO_none_right (a : Option String) : orO a none = a := by
  cases a <;> rfl

theorem orO_assoc (a b c : Option String) : orO (orO a b) c = orO a (orO b c) := by
  cases a <;> rfl

theorem getLast?_cons_orO (x : String) (l : List String) :
    (x :: l).getLast? = orO l.getLast? (some x) := by
  induction l generalizing x with
  | nil => rfl
  | cons y ys ih =>
    rw [List.getLast?_cons_cons, ih y]
    cases hy : (ys.getLast?) <;> simp [orO, ih, hy]

/-! ## C10: specification normalization -/

theorem specsFoldl_lookup (specs : List (String × String)) :
    ∀ (acc : List (String × String)) (k : String),
      lookupS (specs.foldl specStep acc) k =
        orO (specs.filterMap fun kv =>
          if normSpecKey kv.1 = k ∧ pyStrip kv.2 ≠ "" then some (pyStrip kv.2) else none).getLast?
          (lookupS acc k) := by
  induction specs with
  | nil => intro acc k; simp [orO]
  | cons kv rest ih =>
    intro acc k
    rw [List.foldl_cons, ih (specStep acc kv) k, List.filterMap_cons]
    by_cases hit : normSpecKey kv.1 = k ∧ pyStrip kv.2 ≠ ""
    · rw [if_pos hit, getLast?_cons_orO, orO_assoc]
      have hstep : lookupS (specStep acc kv) k = some (pyStrip kv.2) := by
        unfold specStep
        rw [if_pos hit.2, ← hit.1]
        exact lookup_dictSet_self _ _ _
      rw [hstep]
      rfl
    · rw [if_neg hit]
      have hstep : lookupS (specStep acc kv) k = lookupS acc k := by
        unfold specStep
        by_cases hv : pyStrip kv.2 ≠ ""
        · rw [if_pos hv]
          have hk : k ≠ normSpecKey kv.1 := by
            intro he
            exact hit ⟨he.symm, hv⟩
          exact lookup_dictSet_other _ _ _ _ hk
        · rw [if_neg hv]
      rw [hstep]

theorem specsFoldl_entries (l : List (String × String))
    (P : String × String → Prop) :
    ∀ (acc : List (String × String)), (∀ kv ∈ acc, P kv) →
      (∀ kv ∈ l, pyStrip kv.2 ≠ "" → P (normSpecKey kv.1, pyStrip kv.2)) →
      ∀ kv ∈ l.foldl specStep acc, P kv := by
  induction l with
  | nil => intro acc hacc _ kv hkv; exact hacc kv hkv
  | cons kv0 rest ih =>
    intro acc hacc hl kv hkv
    rw [List.foldl_cons] at hkv
    refine ih (specStep acc kv0) ?_ ?_ kv hkv
    · intro kv1 hkv1
      unfold specStep at hkv1
      by_cases hv : pyStrip kv0.2 ≠ ""
      · rw [if_pos hv] at hkv1
        rcases mem_dictSet _ _ _ _ hkv1 with h | h
        · exact hacc kv1 h
        · rw [h]; exact hl kv0 (List.mem_cons_self _ _) hv
      · rw [if_neg hv] at hkv1
        exact hacc kv1 hkv1
    · intro kv1 hkv1 hv
      exact hl kv1 (List.mem_cons_of_mem _ hkv1) hv

/-- C10 counterexample: on two keys that normalize to the same key with two
non-empty values, the code keeps the last value, not the first: input
[("A", "x"), ("a", "y")] yields value "y" for key "a", and "y" is not
"x". -/
theorem C10_counterexample :
    normalize_specifications [("A", "x"), ("a", "y")] = [("a", "y")] ∧
    lookupS (normalize_specifications [("A", "x"), ("a", "y")]) "a" = some "y" ∧
    some "y" ≠ some "x" := by
  refine ⟨by decide, by decide, by decide⟩

/-- C10 (amended): specification normalization lower-cases and
whitespace-collapses every key, drops every entry whose value is empty after
trimming, and when two input keys normalize to the same key it keeps the
last non-empty value encountered (a later non-empty value overwrites an
earlier one). -/
theorem C10_normalize_specifications :
    (∀ (specs : List (String × String)) (kv : String × String),
      kv ∈ normalize_specifications specs →
        kv.2 ≠ "" ∧ ∃ kv0 ∈ specs, kv.1 = normSpecKey kv0.1 ∧ kv.2 = pyStrip kv0.2) ∧
    (∀ (specs : List (String × String)) (k : String),
      lookupS (normalize_specifications specs) k = lastNonEmptyFor specs k) := by
  constructor
  · intro specs kv hkv
    refine specsFoldl_entries specs
      (fun kv => kv.2 ≠ "" ∧ ∃ kv0 ∈ specs, kv.1 = normSpecKey kv0.1 ∧ kv.2 = pyStrip kv0.2)
      [] (by simp) ?_ kv hkv
    intro kv1 h1 hv
    exact ⟨hv, kv1, h1, rfl, rfl⟩
  · intro specs k
    rw [normalize_specifications, specsFoldl_lookup specs [] k]
    rw [lastNonEmptyFor]
    exact orO_none_right _

/-- C10 witness: the amended theorem applied to the concrete input of the
counterexample. -/
theorem C10_witness :
    (("a", "y") ∈ normalize_specifications [("A", "x"), ("a", "y")]) ∧
    ("y" ≠ "" ∧ ∃ kv0 ∈ [("A", "x"), ("a", "y")],
      "a" = normSpecKey kv0.1 ∧ "y" = pyStrip kv0.2) := by
  refine ⟨by decide, ?_⟩
  exact C10_normalize_specifications.1 [("A", "x"), ("a", "y")] ("a", "y") (by decide)

/-! ## C4: availability normalization -/

/-- C4 counterexample: the table lookup is exact, not substring-based, so
the two phrases the claim names fall through to "unknown" instead of
limited_stock / out_of_stock. -/
theorem C4_counterexample :
    normalize_availability "In Stock, only 2 left" = "unknown" ∧
    normalize_availability "Currently unavailable" = "unknown" ∧
    ("unknown" : String) ≠ "limited_stock" ∧
    ("unknown" : String) ≠ "out_of_stock" := by
  refine ⟨by decide, by decide, by decide, by decide⟩

/-- C4 (amended): availability normalization is a case-insensitive exact
lookup of the stripped phrase against a fixed table; the result is always
one of the five closed enum values and every unmapped input yields
"unknown"; since neither "in stock, only 2 left" nor "currently unavailable"
is a table key, both normalize to "unknown" (as does "zzz"), while exact
phrases such as "Limited Stock" map to their enum value. -/
theorem C4_normalize_availability :
    (∀ s : String, normalize_availability s ∈
      ["in_stock", "out_of_stock", "pre_order", "limited_stock", "unknown"]) ∧
    (∀ s t : String, pyStrip (pyLower s) = pyStrip (pyLower t) →
      normalize_availability s = normalize_availability t) ∧
    normalize_availability "In Stock, only 2 left" = "unknown" ∧
    normalize_availability "Currently unavailable" = "unknown" ∧
    normalize_availability "zzz" = "unknown" ∧
    normalize_availability "Limited Stock" = "limited_stock" ∧
    normalize_availability "In Stock" = "in_stock" := by
  refine ⟨?_, ?_, by decide, by decide, by decide, by decide, by decide⟩
  · intro s
    by_cases hs : s = ""
    · simp [normalize_availability, hs]
    · rw [normalize_availability, if_neg hs]
      have hm := getD_lookupS_mem availability_map (pyStrip (pyLower s)) "unknown"
      have hsub : ∀ y ∈ ("unknown" :: availability_map.map Prod.snd),
          y ∈ ["in_stock", "out_of_stock", "pre_order", "limited_stock", "unknown"] := by
        decide
      exact hsub _ hm
  · intro s t h
    by_cases hs : s = "" <;> by_cases ht : t = ""
    · rw [hs, ht]
    · rw [hs] at h
      rw [normalize_availability, if_pos hs, normalize_availability, if_neg ht, ← h]
      decide
    · rw [ht] at h
      rw [normalize_availability, if_neg hs, normalize_availability, if_pos ht, h]
      decide
    · rw [normalize_availability, if_neg hs, normalize_availability, if_neg ht, h]

/-- C4 witness: the amended theorem's case-insensitivity clause applied to a
concrete pair of inputs equal up to case and surrounding space. -/
theorem C4_witness :
    (pyStrip (pyLower "IN STOCK") = pyStrip (pyLower " in stock ")) ∧
    normalize_availability "IN STOCK" = normalize_availability " in stock " := by
  refine ⟨by decide, ?_⟩
  exact C4_normalize_availability.2.1 "IN STOCK" " in stock " (by decide)


/-! ## C3: price normalization -/

theorem parse_float_no_digit (cs : List Char) (h : cs.filter Char.isDigit = []) :
    parse_float cs = none := by
  unfold parse_float
  cases hall : (cs.all fun c => c.isDigit || c == '.') with
  | false => simp [hall]
  | true => simp [hall, h]

/- The Batteries rational-arithmetic operations are irreducible by default;
unseal them for this declaration so the concrete run reduces in the
kernel. -/
attribute [local semireducible] Rat.add Rat.mul Rat.sub Rat.inv in
/-- C3 counterexample: the base-class price parser treats a single comma
followed by AT MOST two digits as a decimal separator ("1,5" parses to 1.5),
while the claim's rule (thousands separator unless exactly two trailing
digits) would give 15; and DataNormalizer.normalize_price has no comma rule
at all: it strips the comma of "19,99" and parses 1999, not 19.99. -/
theorem C3_counterexample :
    (extract_price "1,5" = some (3/2) ∧ ((3/2 : ℚ) = 15 → False)) ∧
    (normalize_price "19,99" = some 1999 ∧ (((1999 : ℚ) = 1999/100) → False)) := by
  refine ⟨⟨by decide, by norm_num⟩, ⟨by decide, by norm_num⟩⟩

attribute [local semireducible] Rat.add Rat.mul Rat.sub Rat.inv in
/-- C3 (amended): DataNormalizer.normalize_price strips every character but
digits and the dot, so "$1,299.00" parses to 1299.0 but "19,99" parses to
1999.0; the comma rule belongs to PremiumBaseScraper._extract_price, which
treats a single comma as a decimal separator when its tail has at most two
characters (so "19,99" gives 19.99 but also "1,5" gives 1.5) and as a
thousands separator otherwise; both return none on every digit-free input
and raise no exception. -/
theorem C3_price_normalization :
    normalize_price "$1,299.00" = some 1299 ∧
    normalize_price "19,99" = some 1999 ∧
    extract_price "$1,299.00" = some 1299 ∧
    extract_price "19,99" = some (1999/100) ∧
    extract_price "1,5" = some (3/2) ∧
    extract_price "1,234" = some 1234 ∧
    (∀ s : String, (∀ c ∈ s.toList, ¬c.isDigit) →
      normalize_price s = none ∧ extract_price s = none) := by
  refine ⟨by decide, by decide, by decide, by decide, by decide, by decide, ?_⟩
  intro s h
  constructor
  · by_cases hs : s = ""
    · rw [normalize_price, if_pos hs]
    · rw [normalize_price, if_neg hs]
      refine parse_float_no_digit _ ?_
      rw [List.filter_eq_nil_iff]
      intro c hc
      exact h c (List.mem_filter.1 hc).1
  · by_cases hs : s = ""
    · rw [extract_price, if_pos hs]
    · rw [extract_price, if_neg hs]
      simp only []
      refine parse_float_no_digit _ ?_
      rw [List.filter_eq_nil_iff]
      intro c hc
      split at hc
      · have := (List.mem_filter.1 hc).1
        exact h c (List.mem_filter.1 this).1
      · split at hc
        · split at hc
          · split at hc
            · rcases List.mem_map.1 hc with ⟨c0, hc0, he⟩
              have hc0s := h c0 (List.mem_filter.1 hc0).1
              by_cases hcm : c0 == ','
              · rw [if_pos hcm] at he
                rw [← he]
                decide
              · rw [if_neg hcm] at he
                rw [← he]
                exact hc0s
            · have := (List.mem_filter.1 hc).1
              exact h c (List.mem_filter.1 this).1
          · have := (List.mem_filter.1 hc).1
            exact h c (List.mem_filter.1 this).1
        · exact h c (List.mem_filter.1 hc).1

/-- C3 witness: both parsers map the digit-free input "abc" to none. -/
theorem C3_witness :
    normalize_price "abc" = none ∧ extract_price "abc" = none :=
  C3_price_normalization.2.2.2.2.2.2 "abc" (by decide)

/-! ## C8: discount percentage -/

theorem rhe_nonneg (q : ℚ) (h : 0 ≤ q) : 0 ≤ rhe q := by
  have hf : 0 ≤ ⌊q⌋ := Int.floor_nonneg.2 h
  unfold rhe
  split_ifs <;> omega

theorem rhe_le_of_lt (q : ℚ) (n : ℤ) (h : q < n) : rhe q ≤ n := by
  have hf : ⌊q⌋ < n := Int.floor_lt.2 h
  unfold rhe
  split_ifs <;> omega

attribute [local semireducible] Rat.add Rat.mul Rat.sub Rat.inv in
/-- C8 counterexample: the code never checks price consistency, so with
current=100 and original=80 (both present, original > 0,
original < current) the discount is computed anyway and equals -25, outside
[0, 100]; conversely a present-but-zero current price (falsy in Python)
yields no discount even though both prices are present and original > 0. -/
theorem C8_counterexample :
    compute_discount (some 100) (some 80) = some (-25) ∧
    ((0 : ℚ) ≤ -25 → False) ∧
    compute_discount (some 0) (some 100) = none := by
  refine ⟨by decide, by norm_num, by decide⟩

attribute [local semireducible] Rat.add Rat.mul Rat.sub Rat.inv in
/-- C8 (amended): discount_percentage is defined iff current_price and
original_price are both present and nonzero (Python truthiness; no
consistency check); when defined it equals
round(((original - current) / original) * 100, 2), so current=80,
original=100 gives 20.00, and it lies in [0, 100] whenever the prices are
consistent (0 < current <= original), but is negative when
current > original. -/
theorem C8_discount :
    (∀ p o : Option ℚ, (compute_discount p o).isSome = true ↔
      ∃ a b, p = some a ∧ o = some b ∧ a ≠ 0 ∧ b ≠ 0) ∧
    compute_discount (some 80) (some 100) = some 20 ∧
    (∀ a b d : ℚ, compute_discount (some a) (some b) = some d →
      d = round2 ((b - a) / b * 100)) ∧
    (∀ a b : ℚ, 0 < a → a ≤ b → ∃ d,
      compute_discount (some a) (some b) = some d ∧ 0 ≤ d ∧ d ≤ 100) := by
  refine ⟨?_, by decide, ?_, ?_⟩
  · intro p o
    match p, o with
    | none, none => simp [compute_discount]
    | none, some b => simp [compute_discount]
    | some a, none => simp [compute_discount]
    | some a, some b =>
      constructor
      · intro h
        rw [compute_discount] at h
        split at h
        · rename_i hcond
          exact ⟨a, b, rfl, rfl, hcond.1, hcond.2⟩
        · simp at h
      · rintro ⟨a2, b2, ha, hb, ha0, hb0⟩
        have haa : a2 = a := (Option.some.inj ha).symm
        have hbb : b2 = b := (Option.some.inj hb).symm
        rw [haa] at ha0; rw [hbb] at hb0
        rw [compute_discount, if_pos ⟨ha0, hb0⟩]
        rfl
  · intro a b d h
    rw [compute_discount] at h
    split at h
    · injection h with h2
      exact h2.symm
    · exact absurd h (by simp)
  · intro a b ha hab
    have hb : 0 < b := lt_of_lt_of_le ha hab
    have ha0 : a ≠ 0 := ne_of_gt ha
    have hb0 : b ≠ 0 := ne_of_gt hb
    refine ⟨round2 ((b - a) / b * 100), by rw [compute_discount, if_pos ⟨ha0, hb0⟩], ?_, ?_⟩
    · have hq : 0 ≤ (b - a) / b * 100 := by
        have := div_nonneg (by linarith : (0:ℚ) ≤ b - a) (le_of_lt hb)
        linarith
      have hr := rhe_nonneg ((b - a) / b * 100 * 100) (by linarith)
      rw [round2]
      exact div_nonneg (by exact_mod_cast hr) (by norm_num)
    · have hq1 : (b - a) / b < 1 := by
        rw [div_lt_one hb]
        linarith
      have hq : (b - a) / b * 100 * 100 < 10000 := by nlinarith
      have hle := rhe_le_of_lt ((b - a) / b * 100 * 100) 10000 (by exact_mod_cast hq)
      rw [round2]
      rw [div_le_iff₀ (by norm_num : (0:ℚ) < 100)]
      calc ((rhe ((b - a) / b * 100 * 100) : ℤ) : ℚ) ≤ ((10000 : ℤ) : ℚ) := by
            exact_mod_cast hle
        _ = 100 * 100 := by norm_num


/-- C8 witness: the amended theorem's bounds clause at current=80,
original=100. -/
theorem C8_witness :
    (0 : ℚ) < 80 ∧ (80 : ℚ) ≤ 100 ∧
    (∃ d, compute_discount (some 80) (some 100) = some d ∧ 0 ≤ d ∧ d ≤ 100) :=
  ⟨by norm_num, by norm_num, C8_discount.2.2.2 80 100 (by norm_num) (by norm_num)⟩


/-! ## C5 and C7: curation -/

/-- C5: under the default rules, a product whose (lowercased) category
contains neither "adult" nor "mature" satisfies the exclude_categories
condition (the check is inverted), so the exclude_adult_content rule matches
and short-circuits: the product is excluded regardless of rating, reviews or
availability, and apply_curation_rules with default rules drops every such
product; only a category containing an excluded substring makes the
condition false. -/
theorem C5_default_rules_exclude :
    (∀ p : Product,
      strContains (pyLower p.category) "adult" = false →
      strContains (pyLower p.category) "mature" = false →
      check_condition p { exclude_categories := some ["adult", "mature"] } = true ∧
      evaluate_product p default_rules =
        ⟨"exclude", 0, "Excluded by: exclude_adult_content"⟩) ∧
    (∀ ps : List Product,
      (∀ p ∈ ps, strContains (pyLower p.category) "adult" = false ∧
        strContains (pyLower p.category) "mature" = false) →
      apply_curation_rules ps none = []) ∧
    (∀ p : Product, strContains (pyLower p.category) "adult" = true →
      check_condition p { exclude_categories := some ["adult", "mature"] } = false) := by
  have hex : ∀ p : Product,
      strContains (pyLower p.category) "adult" = false →
      strContains (pyLower p.category) "mature" = false →
      check_condition p { exclude_categories := some ["adult", "mature"] } = true := by
    intro p h1 h2
    simp [check_condition, h1, h2]
  have heval : ∀ p : Product,
      strContains (pyLower p.category) "adult" = false →
      strContains (pyLower p.category) "mature" = false →
      evaluate_product p default_rules =
        ⟨"exclude", 0, "Excluded by: exclude_adult_content"⟩ := by
    intro p h1 h2
    have hsort : sort_rules default_rules =
        [⟨"minimum_rating", { min_rating := some 4 }, "include", 1⟩,
         ⟨"exclude_adult_content", { exclude_categories := some ["adult", "mature"] },
           "exclude", 1⟩,
         ⟨"minimum_reviews", { min_reviews := some 10 }, "include", 2⟩,
         ⟨"in_stock_only", { availability := some "in_stock" }, "include", 3⟩] := rfl
    have hx := hex p h1 h2
    rw [evaluate_product, hsort]
    cases hc : check_condition p { min_rating := some 4 } with
    | true => simp [eval_loop, hc, hx]
    | false => simp [eval_loop, hc, hx]
  refine ⟨fun p h1 h2 => ⟨hex p h1 h2, heval p h1 h2⟩, ?_, ?_⟩
  · intro ps h
    rw [apply_curation_rules, List.filterMap_eq_nil_iff]
    intro p hp
    have h12 := h p hp
    have he := heval p h12.1 h12.2
    simp only [Option.getD]
    rw [he]
    rfl
  · intro p h
    simp [check_condition, h]

/-- C5 witness: a product in category "books" (rating and availability
excellent) is dropped by the default rules. -/
theorem C5_witness :
    evaluate_product
      { category := "books", rating := some (9/2), review_count := some 50,
        availability := some "in_stock" } default_rules =
      ⟨"exclude", 0, "Excluded by: exclude_adult_content"⟩ ∧
    apply_curation_rules
      [{ category := "books", rating := some (9/2), review_count := some 50,
         availability := some "in_stock" }] none = [] := by
  constructor
  · exact (C5_default_rules_exclude.1 _ (by decide) (by decide)).2
  · exact C5_default_rules_exclude.2.1 _ (by decide)

attribute [local semireducible] Rat.add Rat.mul Rat.sub Rat.inv in
/-- C7: rule evaluation runs over the priority-sorted rule list; a matching
exclude rule short-circuits with score 0 and reason "Excluded by: <rule>"; a
matching include adds 1.0 and a matching flag adds 0.5; absent a
short-circuit the final action is include iff the accumulated score is at
least 2.0 and flag iff at least 1.0, with curation_score the accumulated
score divided by the rule count; the output keeps included records with
is_curated=True and flagged records with is_curated=False and drops excluded
ones; and the scenario record (rating 4.5, 50 reviews, in_stock) against the
three include rules accumulates 3.0 and comes out curated. -/
theorem C7_curation_evaluation :
    (∀ (p : Product) (r : Rule) (rest : List Rule) (score : ℚ) (reasons : List String),
      check_condition p r.condition = true → r.action = "exclude" →
      eval_loop p (r :: rest) score reasons =
        .error ⟨"exclude", 0, "Excluded by: " ++ r.name⟩) ∧
    (∀ (p : Product) (r : Rule) (rest : List Rule) (score : ℚ) (reasons : List String),
      check_condition p r.condition = true → r.action = "include" →
      eval_loop p (r :: rest) score reasons =
        eval_loop p rest (score + 1) (reasons ++ ["Passed: " ++ r.name])) ∧
    (∀ (p : Product) (r : Rule) (rest : List Rule) (score : ℚ) (reasons : List String),
      check_condition p r.condition = true → r.action = "flag" →
      eval_loop p (r :: rest) score reasons =
        eval_loop p rest (score + 1/2) (reasons ++ ["Flagged: " ++ r.name])) ∧
    (∀ (p : Product) (rules : List Rule) (score : ℚ) (reasons : List String),
      eval_loop p (sort_rules rules) 0 [] = .ok (score, reasons) →
      evaluate_product p rules =
        ⟨if 2 ≤ score then "include" else if 1 ≤ score then "flag" else "exclude",
         if rules.isEmpty then 0 else score / rules.length,
         if reasons.isEmpty then "No rules matched" else joinSemicolon reasons⟩) ∧
    (∀ (ps : List Product) (rules : List Rule),
      apply_curation_rules ps (some rules) =
        ps.filterMap fun p =>
          if (evaluate_product p rules).action = "include" then
            some { p with is_curated := some true,
                          curation_score := some (evaluate_product p rules).score,
                          curation_reason := some (evaluate_product p rules).reason }
          else if (evaluate_product p rules).action = "flag" then
            some { p with is_curated := some false,
                          curation_score := some (evaluate_product p rules).score,
                          curation_reason := some (evaluate_product p rules).reason }
          else none) ∧
    (eval_loop sample_record (sort_rules three_include_rules) 0 [] =
      .ok (3, ["Passed: minimum_rating", "Passed: minimum_reviews",
               "Passed: in_stock_only"]) ∧
     evaluate_product sample_record three_include_rules =
      ⟨"include", 1,
       "Passed: minimum_rating; Passed: minimum_reviews; Passed: in_stock_only"⟩ ∧
     apply_curation_rules [sample_record] (some three_include_rules) =
      [{ sample_record with
         is_curated := some true,
         curation_score := some 1,
         curation_reason :=
           some "Passed: minimum_rating; Passed: minimum_reviews; Passed: in_stock_only" }]) := by
  refine ⟨?_, ?_, ?_, ?_, ?_, by rfl, by decide, by decide⟩
  · intro p r rest score reasons hc ha
    rw [eval_loop, if_pos hc, ha]
    rfl
  · intro p r rest score reasons hc ha
    rw [eval_loop, if_pos hc, ha]
    rfl
  · intro p r rest score reasons hc ha
    rw [eval_loop, if_pos hc, ha]
    rfl
  · intro p rules score reasons h
    rw [evaluate_product, h]
  · intro ps rules
    rfl

attribute [local semireducible] Rat.add Rat.mul Rat.sub Rat.inv in
/-- C7 witness: the short-circuit clause applied to the concrete exclusion
rule and a books-category record, and the include clause applied to the
minimum_rating rule and the scenario record. -/
theorem C7_witness :
    eval_loop { category := "books" : Product }
      [⟨"exclude_adult_content", { exclude_categories := some ["adult", "mature"] },
        "exclude", 1⟩] 0 [] =
      .error ⟨"exclude", 0, "Excluded by: " ++ "exclude_adult_content"⟩ ∧
    eval_loop sample_record
      [⟨"minimum_rating", { min_rating := some 4 }, "include", 1⟩] 0 [] =
      eval_loop sample_record [] (0 + 1) ([] ++ ["Passed: " ++ "minimum_rating"]) := by
  constructor
  · exact C7_curation_evaluation.1 _ _ [] 0 [] (by decide) (by decide)
  · exact C7_curation_evaluation.2.1 _ _ [] 0 [] (by decide) (by decide)


/-! ## C6: data quality score -/

theorem ite_nonneg_q (c : Prop) [Decidable c] (w : ℚ) (hw : 0 ≤ w) :
    0 ≤ (if c then w else 0) := by
  split
  · exact hw
  · exact le_rfl

theorem ite_mono_q (c1 c2 : Prop) [Decidable c1] [Decidable c2] (w : ℚ)
    (hw : 0 ≤ w) (h : c1 → c2) :
    (if c1 then w else 0) ≤ (if c2 then w else 0) := by
  by_cases h1 : c1
  · rw [if_pos h1, if_pos (h h1)]
  · rw [if_neg h1]
    exact ite_nonneg_q _ _ hw

attribute [local semireducible] Rat.add Rat.mul Rat.sub Rat.inv in
/-- C6 counterexample: a record with no availability key passes the
availability check (None != 'unknown'), so filling the previously-missing
availability field with the value "unknown" (the normalizer's output for any
unmapped phrase) strictly decreases the quality score. -/
theorem C6_counterexample :
    ({} : Product).availability = none ∧
    calculate_quality_score { availability := some "unknown" } <
      calculate_quality_score ({} : Product) := by
  constructor
  · rfl
  · decide

theorem quality_mono_aux (p q : Product)
    (h1 : (if p.title ≠ "" then (15:ℚ)/100 else 0) ≤ (if q.title ≠ "" then (15:ℚ)/100 else 0))
    (h2 : (if p.brand ≠ "" then (10:ℚ)/100 else 0) ≤ (if q.brand ≠ "" then (10:ℚ)/100 else 0))
    (h3 : (if p.description ≠ "" ∨ p.bullet_points ≠ [] then (10:ℚ)/100 else 0) ≤ (if q.description ≠ "" ∨ q.bullet_points ≠ [] then (10:ℚ)/100 else 0))
    (h4 : (if p.category ≠ "" then (5:ℚ)/100 else 0) ≤ (if q.category ≠ "" then (5:ℚ)/100 else 0))
    (h5 : (if truthyQ p.current_price then (15:ℚ)/100 else 0) ≤ (if truthyQ q.current_price then (15:ℚ)/100 else 0))
    (h6 : (if p.availability ≠ some "unknown" then (10:ℚ)/100 else 0) ≤ (if q.availability ≠ some "unknown" then (10:ℚ)/100 else 0))
    (h7 : (if p.primary_image_url ≠ "" then (10:ℚ)/100 else 0) ≤ (if q.primary_image_url ≠ "" then (10:ℚ)/100 else 0))
    (h8 : (if p.additional_images ≠ [] then (5:ℚ)/100 else 0) ≤ (if q.additional_images ≠ [] then (5:ℚ)/100 else 0))
    (h9 : (if p.specifications ≠ [] then (8:ℚ)/100 else 0) ≤ (if q.specifications ≠ [] then (8:ℚ)/100 else 0))
    (h10 : (if p.features ≠ [] then (7:ℚ)/100 else 0) ≤ (if q.features ≠ [] then (7:ℚ)/100 else 0))
    (h11 : (if truthyQ p.rating then (3:ℚ)/100 else 0) ≤ (if truthyQ q.rating then (3:ℚ)/100 else 0))
    (h12 : (if truthyN p.review_count then (2:ℚ)/100 else 0) ≤ (if truthyN q.review_count then (2:ℚ)/100 else 0)) :
    calculate_quality_score p ≤ calculate_quality_score q := by
  simp only [calculate_quality_score]
  refine min_le_min ?_ le_rfl
  exact (add_le_add (add_le_add (add_le_add (add_le_add (add_le_add (add_le_add (add_le_add (add_le_add (add_le_add (add_le_add (add_le_add h1 h2) h3) h4) h5) h6) h7) h8) h9) h10) h11) h12)

theorem quality_score_nonneg (p : Product) : 0 ≤ calculate_quality_score p := by
  simp only [calculate_quality_score]
  refine le_min ?_ (by norm_num)
  exact (add_nonneg (add_nonneg (add_nonneg (add_nonneg (add_nonneg (add_nonneg (add_nonneg (add_nonneg (add_nonneg (add_nonneg (add_nonneg (ite_nonneg_q _ _ (by norm_num)) (ite_nonneg_q _ _ (by norm_num))) (ite_nonneg_q _ _ (by norm_num))) (ite_nonneg_q _ _ (by norm_num))) (ite_nonneg_q _ _ (by norm_num))) (ite_nonneg_q _ _ (by norm_num))) (ite_nonneg_q _ _ (by norm_num))) (ite_nonneg_q _ _ (by norm_num))) (ite_nonneg_q _ _ (by norm_num))) (ite_nonneg_q _ _ (by norm_num))) (ite_nonneg_q _ _ (by norm_num))) (ite_nonneg_q _ _ (by norm_num)))

/-- C6 (amended): the data quality score always lies in [0, 1], and filling
any previously-missing scored field cannot decrease the score, with one
exception: because a missing availability already passes the != "unknown"
check, filling availability is only monotonic for values other than
"unknown" (setting it to "unknown" can strictly decrease the score, see the
counterexample). -/
theorem C6_quality_score :
    (∀ p : Product, 0 ≤ calculate_quality_score p ∧ calculate_quality_score p ≤ 1) ∧
    (∀ (p : Product) (v : String), p.title = "" →
      calculate_quality_score p ≤ calculate_quality_score { p with title := v }) ∧
    (∀ (p : Product) (v : String), p.brand = "" →
      calculate_quality_score p ≤ calculate_quality_score { p with brand := v }) ∧
    (∀ (p : Product) (v : String), p.description = "" →
      calculate_quality_score p ≤ calculate_quality_score { p with description := v }) ∧
    (∀ (p : Product) (v : List String), p.bullet_points = [] →
      calculate_quality_score p ≤ calculate_quality_score { p with bullet_points := v }) ∧
    (∀ (p : Product) (v : String), p.category = "" →
      calculate_quality_score p ≤ calculate_quality_score { p with category := v }) ∧
    (∀ (p : Product) (v : ℚ), p.current_price = none →
      calculate_quality_score p ≤ calculate_quality_score { p with current_price := some v }) ∧
    (∀ (p : Product) (v : String), p.availability = none → v ≠ "unknown" →
      calculate_quality_score p ≤ calculate_quality_score { p with availability := some v }) ∧
    (∀ (p : Product) (v : String), p.primary_image_url = "" →
      calculate_quality_score p ≤ calculate_quality_score { p with primary_image_url := v }) ∧
    (∀ (p : Product) (v : List String), p.additional_images = [] →
      calculate_quality_score p ≤ calculate_quality_score { p with additional_images := v }) ∧
    (∀ (p : Product) (v : List (String × String)), p.specifications = [] →
      calculate_quality_score p ≤ calculate_quality_score { p with specifications := v }) ∧
    (∀ (p : Product) (v : List String), p.features = [] →
      calculate_quality_score p ≤ calculate_quality_score { p with features := v }) ∧
    (∀ (p : Product) (v : ℚ), p.rating = none →
      calculate_quality_score p ≤ calculate_quality_score { p with rating := some v }) ∧
    (∀ (p : Product) (v : ℕ), p.review_count = none →
      calculate_quality_score p ≤ calculate_quality_score { p with review_count := some v }) := by
  refine ⟨fun p => ⟨quality_score_nonneg p, ?_⟩, ?_, ?_, ?_, ?_, ?_, ?_, ?_, ?_, ?_, ?_, ?_, ?_, ?_⟩
  · simp only [calculate_quality_score]
    exact min_le_right _ _
  · intro p v h
    exact quality_mono_aux _ _ (ite_mono_q _ _ _ (by norm_num) (fun hc => absurd h hc)) le_rfl le_rfl le_rfl le_rfl le_rfl le_rfl le_rfl le_rfl le_rfl le_rfl le_rfl
  · intro p v h
    exact quality_mono_aux _ _ le_rfl (ite_mono_q _ _ _ (by norm_num) (fun hc => absurd h hc)) le_rfl le_rfl le_rfl le_rfl le_rfl le_rfl le_rfl le_rfl le_rfl le_rfl
  · intro p v h
    exact quality_mono_aux _ _ le_rfl le_rfl (ite_mono_q _ _ _ (by norm_num) (fun hc => hc.elim (fun hd => absurd h hd) Or.inr)) le_rfl le_rfl le_rfl le_rfl le_rfl le_rfl le_rfl le_rfl le_rfl
  · intro p v h
    exact quality_mono_aux _ _ le_rfl le_rfl (ite_mono_q _ _ _ (by norm_num) (fun hc => hc.elim Or.inl (fun hb => absurd h hb))) le_rfl le_rfl le_rfl le_rfl le_rfl le_rfl le_rfl le_rfl le_rfl
  · intro p v h
    exact quality_mono_aux _ _ le_rfl le_rfl le_rfl (ite_mono_q _ _ _ (by norm_num) (fun hc => absurd h hc)) le_rfl le_rfl le_rfl le_rfl le_rfl le_rfl le_rfl le_rfl
  · intro p v h
    exact quality_mono_aux _ _ le_rfl le_rfl le_rfl le_rfl (ite_mono_q _ _ _ (by norm_num) (fun hc => by rw [h] at hc; exact absurd hc (by decide))) le_rfl le_rfl le_rfl le_rfl le_rfl le_rfl le_rfl
  · intro p v h hv
    exact quality_mono_aux _ _ le_rfl le_rfl le_rfl le_rfl le_rfl (ite_mono_q _ _ _ (by norm_num) (fun hc2 => by simp [hv])) le_rfl le_rfl le_rfl le_rfl le_rfl le_rfl
  · intro p v h
    exact quality_mono_aux _ _ le_rfl le_rfl le_rfl le_rfl le_rfl le_rfl (ite_mono_q _ _ _ (by norm_num) (fun hc => absurd h hc)) le_rfl le_rfl le_rfl le_rfl le_rfl
  · intro p v h
    exact quality_mono_aux _ _ le_rfl le_rfl le_rfl le_rfl le_rfl le_rfl le_rfl (ite_mono_q _ _ _ (by norm_num) (fun hc => absurd h hc)) le_rfl le_rfl le_rfl le_rfl
  · intro p v h
    exact quality_mono_aux _ _ le_rfl le_rfl le_rfl le_rfl le_rfl le_rfl le_rfl le_rfl (ite_mono_q _ _ _ (by norm_num) (fun hc => absurd h hc)) le_rfl le_rfl le_rfl
  · intro p v h
    exact quality_mono_aux _ _ le_rfl le_rfl le_rfl le_rfl le_rfl le_rfl le_rfl le_rfl le_rfl (ite_mono_q _ _ _ (by norm_num) (fun hc => absurd h hc)) le_rfl le_rfl
  · intro p v h
    exact quality_mono_aux _ _ le_rfl le_rfl le_rfl le_rfl le_rfl le_rfl le_rfl le_rfl le_rfl le_rfl (ite_mono_q _ _ _ (by norm_num) (fun hc => by rw [h] at hc; exact absurd hc (by decide))) le_rfl
  · intro p v h
    exact quality_mono_aux _ _ le_rfl le_rfl le_rfl le_rfl le_rfl le_rfl le_rfl le_rfl le_rfl le_rfl le_rfl (ite_mono_q _ _ _ (by norm_num) (fun hc => by rw [h] at hc; exact absurd hc (by decide)))

/-- C6 witness: the amended theorem's title and availability clauses applied
to the empty record. -/
theorem C6_witness :
    (({} : Product).title = "" ∧
      calculate_quality_score {} ≤ calculate_quality_score { title := "Widget" }) ∧
    (({} : Product).availability = none ∧ "in_stock" ≠ "unknown" ∧
      calculate_quality_score {} ≤
        calculate_quality_score { availability := some "in_stock" }) := by
  refine ⟨⟨rfl, ?_⟩, rfl, by decide, ?_⟩
  · exact C6_quality_score.2.1 {} "Widget" rfl
  · exact C6_quality_score.2.2.2.2.2.2.2.1 {} "in_stock" rfl (by decide)


/-! ## C2: merging duplicate groups -/

theorem pickBest_spec (rest : List Product) : ∀ p : Product,
    (∃ pre post, p :: rest = pre ++ pickBest p rest :: post ∧
      ∀ q ∈ pre, dqs q < dqs (pickBest p rest)) ∧
    ∀ q ∈ p :: rest, dqs q ≤ dqs (pickBest p rest) := by
  induction rest with
  | nil =>
    intro p
    exact ⟨⟨[], [], rfl, by simp⟩, by simp [pickBest]⟩
  | cons q0 rs ih =>
    intro p
    rw [pickBest]
    by_cases hpq : dqs p < dqs q0
    · rw [if_pos hpq]
      obtain ⟨⟨pre, post, hsplit, hpre⟩, hall⟩ := ih q0
      refine ⟨⟨p :: pre, post, ?_, ?_⟩, ?_⟩
      · rw [List.cons_append, ← hsplit]
      · intro q hq
        rcases List.mem_cons.1 hq with rfl | hq2
        · exact lt_of_lt_of_le hpq (hall q0 (List.mem_cons_self _ _))
        · exact hpre q hq2
      · intro q hq
        rcases List.mem_cons.1 hq with rfl | hq2
        · exact le_of_lt (lt_of_lt_of_le hpq (hall q0 (List.mem_cons_self _ _)))
        · exact hall q hq2
    · rw [if_neg hpq]
      obtain ⟨⟨pre, post, hsplit, hpre⟩, hall⟩ := ih p
      have hq0le : dqs q0 ≤ dqs p := le_of_not_lt hpq
      have hple : dqs p ≤ dqs (pickBest p rs) := hall p (List.mem_cons_self _ _)
      cases pre with
      | nil =>
        simp only [List.nil_append] at hsplit
        have hbp : pickBest p rs = p := (List.cons.injEq _ _ _ _ ▸ hsplit).1.symm
        refine ⟨⟨[], q0 :: rs, ?_, by simp⟩, ?_⟩
        · rw [hbp, List.nil_append]
        · intro q hq
          rcases List.mem_cons.1 hq with rfl | hq2
          · exact hple
          rcases List.mem_cons.1 hq2 with rfl | hq3
          · exact le_trans hq0le hple
          · exact hall q (List.mem_cons_of_mem _ hq3)
      | cons p0 pre2 =>
        rw [List.cons_append] at hsplit
        have hp0 : p = p0 := (List.cons.injEq _ _ _ _ ▸ hsplit).1
        subst hp0
        have hrs : rs = pre2 ++ pickBest p rs :: post :=
          (List.cons.injEq _ _ _ _ ▸ hsplit).2
        have hplt : dqs p < dqs (pickBest p rs) :=
          hpre p (List.mem_cons_self _ _)
        refine ⟨⟨p :: q0 :: pre2, post, ?_, ?_⟩, ?_⟩
        · rw [List.cons_append, List.cons_append, ← hrs]
        · intro q hq
          rcases List.mem_cons.1 hq with rfl | hq2
          · exact hplt
          rcases List.mem_cons.1 hq2 with rfl | hq3
          · exact lt_of_le_of_lt hq0le hplt
          · exact hpre q (List.mem_cons_of_mem _ hq3)
        · intro q hq
          rcases List.mem_cons.1 hq with rfl | hq2
          · exact hple
          rcases List.mem_cons.1 hq2 with rfl | hq3
          · exact le_trans hq0le hple
          · exact hall q (List.mem_cons_of_mem _ hq3)

theorem mergeStep_scalars (m q : Product) : scalars (mergeStep m q) = scalars m := by
  unfold mergeStep
  split
  · rfl
  · rfl

theorem foldMerge_scalars (l : List Product) : ∀ m : Product,
    scalars (l.foldl mergeStep m) = scalars m := by
  induction l with
  | nil => intro m; rfl
  | cons q rest ih =>
    intro m
    rw [List.foldl_cons]
    exact (ih (mergeStep m q)).trans (mergeStep_scalars m q)

theorem mem_mergeList_left (add : List String) : ∀ (base : List String) (x : String),
    x ∈ base → x ∈ mergeList base add := by
  induction add with
  | nil => intro base x h; exact h
  | cons a rest ih =>
    intro base x h
    rw [mergeList, List.foldl_cons]
    refine ih _ x ?_
    split
    · exact h
    · exact List.mem_append_left _ h

theorem mem_mergeList_self (add : List String) : ∀ (base : List String) (x : String),
    x ∈ add → x ∈ mergeList base add := by
  induction add with
  | nil => intro base x h; exact absurd h (List.not_mem_nil _)
  | cons a rest ih =>
    intro base x h
    rw [mergeList, List.foldl_cons]
    rcases List.mem_cons.1 h with rfl | h2
    · refine mem_mergeList_left rest _ x ?_
      split
      · rename_i hc
        simpa using hc
      · exact List.mem_append_right _ (List.mem_singleton_self _)
    · exact ih _ x h2

theorem lookupS_append (l1 l2 : List (String × String)) (k : String) :
    lookupS (l1 ++ l2) k = orO (lookupS l1 k) (lookupS l2 k) := by
  induction l1 with
  | nil => rfl
  | cons kv rest ih =>
    obtain ⟨k1, v1⟩ := kv
    by_cases h : k1 = k
    · simp [lookupS, h, orO]
    · simp [lookupS, h, ih]

theorem mergeSpecs_append (add : List (String × String)) :
    ∀ base : List (String × String), ∃ ext, mergeSpecs base add = base ++ ext := by
  induction add with
  | nil => intro base; exact ⟨[], (List.append_nil _).symm⟩
  | cons kv rest ih =>
    intro base
    rw [mergeSpecs, List.foldl_cons]
    split
    · obtain ⟨ext, he⟩ := ih (base ++ [kv])
      rw [mergeSpecs] at he
      exact ⟨[kv] ++ ext, by rw [he, List.append_assoc]⟩
    · obtain ⟨ext, he⟩ := ih base
      rw [mergeSpecs] at he
      exact ⟨ext, he⟩

theorem lookup_mergeSpecs_of_some (base add : List (String × String)) (k v : String)
    (h : lookupS base k = some v) : lookupS (mergeSpecs base add) k = some v := by
  obtain ⟨ext, he⟩ := mergeSpecs_append add base
  rw [he, lookupS_append, h]
  rfl

theorem isSome_mergeSpecs (base add : List (String × String)) (k : String)
    (h : (lookupS base k).isSome = true) :
    (lookupS (mergeSpecs base add) k).isSome = true := by
  obtain ⟨v, hv⟩ := Option.isSome_iff_exists.1 h
  rw [lookup_mergeSpecs_of_some base add k v hv]
  rfl

theorem lookup_isSome_of_mem (l : List (String × String)) (kv : String × String)
    (h : kv ∈ l) : (lookupS l kv.1).isSome = true := by
  induction l with
  | nil => exact absurd h (List.not_mem_nil _)
  | cons kv1 rest ih =>
    obtain ⟨k1, v1⟩ := kv1
    by_cases hk : k1 = kv.1
    · simp [lookupS, hk]
    · rw [lookupS, if_neg hk]
      rcases List.mem_cons.1 h with rfl | h2
      · exact absurd rfl hk
      · exact ih h2

theorem mem_mergeSpecs_isSome (add : List (String × String)) :
    ∀ (base : List (String × String)) (kv : String × String), kv ∈ add → kv.2 ≠ "" →
    (lookupS (mergeSpecs base add) kv.1).isSome = true := by
  induction add with
  | nil => intro base kv h; exact absurd h (List.not_mem_nil _)
  | cons kv0 rest ih =>
    intro base kv h hv
    rw [mergeSpecs, List.foldl_cons]
    have hstep : ∀ acc, mergeSpecs acc rest = rest.foldl
        (fun acc kv => if !(lookupS acc kv.1).isSome && !(kv.2 == "") then acc ++ [kv] else acc)
        acc := fun acc => rfl
    rcases List.mem_cons.1 h with rfl | h2
    · by_cases hc : (lookupS base kv.1).isSome = true
      · rw [← hstep]
        refine isSome_mergeSpecs _ rest kv.1 ?_
        split
        · rename_i hcond
          rw [Bool.and_eq_true, Bool.not_eq_true'] at hcond
          rw [hc] at hcond
          exact absurd hcond.1 (by decide)
        · exact hc
      · rw [← hstep]
        refine isSome_mergeSpecs _ rest kv.1 ?_
        have hnone : lookupS base kv.1 = none := by
          cases hl : lookupS base kv.1
          · rfl
          · rw [hl] at hc; exact absurd rfl hc
        rw [if_pos ?_]
        · rw [lookupS_append, hnone]
          simp [lookupS, orO]
        · rw [Bool.and_eq_true, Bool.not_eq_true', Bool.not_eq_true']
          refine ⟨by rw [hnone]; rfl, ?_⟩
          exact (Bool.not_eq_true _).symm ▸ (by simpa using hv)
    · rw [← hstep]
      exact ih _ kv h2 hv

theorem foldMerge_images_mono (l : List Product) : ∀ (m : Product) (x : String),
    x ∈ m.additional_images → x ∈ (l.foldl mergeStep m).additional_images := by
  induction l with
  | nil => intro m x h; exact h
  | cons q rest ih =>
    intro m x h
    rw [List.foldl_cons]
    refine ih _ x ?_
    unfold mergeStep
    split
    · exact h
    · exact mem_mergeList_left _ _ x h

theorem foldMerge_features_mono (l : List Product) : ∀ (m : Product) (x : String),
    x ∈ m.features → x ∈ (l.foldl mergeStep m).features := by
  induction l with
  | nil => intro m x h; exact h
  | cons q rest ih =>
    intro m x h
    rw [List.foldl_cons]
    refine ih _ x ?_
    unfold mergeStep
    split
    · exact h
    · exact mem_mergeList_left _ _ x h

theorem foldMerge_specs_lookup (l : List Product) : ∀ (m : Product) (k v : String),
    lookupS m.specifications k = some v →
    lookupS (l.foldl mergeStep m).specifications k = some v := by
  induction l with
  | nil => intro m k v h; exact h
  | cons q rest ih =>
    intro m k v h
    rw [List.foldl_cons]
    refine ih _ k v ?_
    unfold mergeStep
    split
    · exact h
    · exact lookup_mergeSpecs_of_some _ _ k v h

theorem foldMerge_specs_isSome_mono (l : List Product) : ∀ (m : Product) (k : String),
    (lookupS m.specifications k).isSome = true →
    (lookupS (l.foldl mergeStep m).specifications k).isSome = true := by
  intro m k h
  obtain ⟨v, hv⟩ := Option.isSome_iff_exists.1 h
  rw [foldMerge_specs_lookup l m k v hv]
  rfl

theorem foldMerge_images_cover (l : List Product) : ∀ (m q : Product) (x : String),
    q ∈ l → x ∈ q.additional_images → x ∈ (l.foldl mergeStep m).additional_images := by
  induction l with
  | nil => intro m q x hq; exact absurd hq (List.not_mem_nil _)
  | cons q0 rest ih =>
    intro m q x hq hx
    rw [List.foldl_cons]
    rcases List.mem_cons.1 hq with rfl | hq2
    · refine foldMerge_images_mono rest _ x ?_
      unfold mergeStep
      split
      · rename_i he
        rw [← he]
        exact hx
      · exact mem_mergeList_self _ _ x hx
    · exact ih _ q x hq2 hx

theorem foldMerge_features_cover (l : List Product) : ∀ (m q : Product) (x : String),
    q ∈ l → x ∈ q.features → x ∈ (l.foldl mergeStep m).features := by
  induction l with
  | nil => intro m q x hq; exact absurd hq (List.not_mem_nil _)
  | cons q0 rest ih =>
    intro m q x hq hx
    rw [List.foldl_cons]
    rcases List.mem_cons.1 hq with rfl | hq2
    · refine foldMerge_features_mono rest _ x ?_
      unfold mergeStep
      split
      · rename_i he
        rw [← he]
        exact hx
      · exact mem_mergeList_self _ _ x hx
    · exact ih _ q x hq2 hx

theorem foldMerge_specs_cover (l : List Product) : ∀ (m q : Product)
    (kv : String × String), q ∈ l → kv ∈ q.specifications → kv.2 ≠ "" →
    (lookupS (l.foldl mergeStep m).specifications kv.1).isSome = true := by
  induction l with
  | nil => intro m q kv hq; exact absurd hq (List.not_mem_nil _)
  | cons q0 rest ih =>
    intro m q kv hq hkv hv
    rw [List.foldl_cons]
    rcases List.mem_cons.1 hq with rfl | hq2
    · refine foldMerge_specs_isSome_mono rest _ kv.1 ?_
      unfold mergeStep
      split
      · rename_i he
        rw [← he]
        exact lookup_isSome_of_mem _ kv hkv
      · exact mem_mergeSpecs_isSome _ _ kv hkv hv
    · exact ih _ q kv hq2 hkv hv




/-- C2: merging a singleton group returns the record unchanged; for every
group of two or more records (the only duplicate groups find_duplicates
emits), the merged record takes every non-merged field from the member with
the highest data_quality_score (first occurrence winning ties), contains
every non-empty additional_images entry, features entry and specifications
key present in any member, keeps the base's value when a specification key
collides, and has duplicate_count equal to the group size. -/
theorem C2_merge_duplicates :
    (∀ r : Product, merge_duplicates [r] = some r) ∧
    (∀ (group : List Product) (m : Product), 2 ≤ group.length →
      merge_duplicates group = some m →
      ∃ best, is_first_max group best ∧
        (m.title = best.title ∧ m.brand = best.brand ∧ m.category = best.category ∧
         m.description = best.description ∧ m.bullet_points = best.bullet_points ∧
         m.current_price = best.current_price ∧ m.original_price = best.original_price ∧
         m.availability = best.availability ∧
         m.primary_image_url = best.primary_image_url ∧ m.rating = best.rating ∧
         m.review_count = best.review_count ∧
         m.data_quality_score = best.data_quality_score) ∧
        (∀ p_ ∈ group,
          (∀ x ∈ p_.additional_images, x ≠ "" → x ∈ m.additional_images) ∧
          (∀ x ∈ p_.features, x ≠ "" → x ∈ m.features) ∧
          (∀ kv ∈ p_.specifications, kv.2 ≠ "" →
            (lookupS m.specifications kv.1).isSome = true)) ∧
        (∀ k v : String, lookupS best.specifications k = some v →
          lookupS m.specifications k = some v) ∧
        m.duplicate_count = some group.length) := by
  constructor
  · intro r
    rfl
  · intro group m hlen h
    cases group with
    | nil => simp at hlen
    | cons p rest =>
    cases rest with
    | nil => simp at hlen
    | cons q rest2 =>
      set best := pickBest p (q :: rest2) with hbest
      set merged := (p :: q :: rest2).foldl mergeStep best with hmerged
      have hm : m = { merged with duplicate_count := some (p :: q :: rest2).length } :=
        (Option.some.inj h).symm
      refine ⟨best, ?_, ?_, ?_, ?_, ?_⟩
      · exact pickBest_spec (q :: rest2) p
      · have hs := foldMerge_scalars (p :: q :: rest2) best
        rw [← hmerged] at hs
        rw [hm]
        simp only [scalars, Prod.mk.injEq] at hs
        obtain ⟨h1, h2, h3, h4, h5, h6, h7, h8, h9, h10, h11, h12, _, _, _, _⟩ := hs
        exact ⟨h1, h2, h3, h4, h5, h6, h7, h8, h9, h10, h11, h12⟩
      · intro p_ hp_
        refine ⟨?_, ?_, ?_⟩
        · intro x hx _
          rw [hm]
          exact foldMerge_images_cover _ best p_ x hp_ hx
        · intro x hx _
          rw [hm]
          exact foldMerge_features_cover _ best p_ x hp_ hx
        · intro kv hkv hv
          rw [hm]
          exact foldMerge_specs_cover _ best p_ kv hp_ hkv hv
      · intro k v hkv
        rw [hm]
        exact foldMerge_specs_lookup _ best k v hkv
      · rw [hm]

/-- C2 witness: the second clause of the theorem applied to a concrete
two-record group in which the second member has the higher quality score. -/
theorem C2_witness :
    2 ≤ ([merge_sample_a, merge_sample_b] : List Product).length ∧
    ∃ m, merge_duplicates [merge_sample_a, merge_sample_b] = some m ∧
      ∃ best, is_first_max [merge_sample_a, merge_sample_b] best ∧
        m.title = best.title ∧ m.duplicate_count = some 2 ∧
        "i1" ∈ m.additional_images ∧ "i3" ∈ m.additional_images ∧
        "f1" ∈ m.features ∧ (lookupS m.specifications "k1").isSome = true := by
  refine ⟨by decide, ?_⟩
  obtain ⟨best, hfm, hsc, hcover, hbase, hdup⟩ :=
    C2_merge_duplicates.2 [merge_sample_a, merge_sample_b]
      ((merge_duplicates [merge_sample_a, merge_sample_b]).getD {}) (by decide) (by rfl)
  refine ⟨_, rfl, best, hfm, hsc.1, hdup, ?_, ?_, ?_, ?_⟩
  · exact (hcover merge_sample_a (by decide)).1 "i1" (by decide) (by decide)
  · exact (hcover merge_sample_b (by decide)).1 "i3" (by decide) (by decide)
  · exact (hcover merge_sample_a (by decide)).2.1 "f1" (by decide) (by decide)
  · exact (hcover merge_sample_b (by decide)).2.2 ("k1", "w1") (by decide) (by decide)


/-! ## C1: greedy duplicate grouping -/

theorem greedy_spec_nil (sim : Product → Product → ℚ) (θ : ℚ) :
    greedy_spec sim θ [] = [] := by
  rw [greedy_spec]

theorem greedy_spec_cons (sim : Product → Product → ℚ) (θ : ℚ) (p : Product)
    (rest : List Product) :
    greedy_spec sim θ (p :: rest) =
      if (rest.filter fun q => decide (θ ≤ sim p q)).isEmpty then
        greedy_spec sim θ rest
      else (p :: rest.filter fun q => decide (θ ≤ sim p q)) ::
        greedy_spec sim θ (rest.filter fun q => !(decide (θ ≤ sim p q))) := by
  rw [greedy_spec]

theorem isEmpty_map_snd (l : List (ℕ × Product)) :
    (l.map Prod.snd).isEmpty = l.isEmpty := by
  cases l <;> rfl

theorem dupGo_eq_greedy (sim : Product → Product → ℚ) (θ : ℚ) :
    ∀ (l : List (ℕ × Product)) (pr : List ℕ), (l.map Prod.fst).Nodup →
    dupGo sim θ l pr =
      greedy_spec sim θ ((l.filter fun x => !(decide (x.1 ∈ pr))).map Prod.snd) := by
  intro l
  induction l with
  | nil =>
    intro pr _
    rw [dupGo, List.filter_nil, List.map_nil, greedy_spec_nil]
  | cons ip rest ih =>
    obtain ⟨i, p⟩ := ip
    intro pr hnd
    rw [List.map_cons] at hnd
    have hnd2 : (rest.map Prod.fst).Nodup := (List.nodup_cons.1 hnd).2
    by_cases hi : i ∈ pr
    · have hfil : List.filter (fun x => !(decide (x.1 ∈ pr))) ((i, p) :: rest) =
          List.filter (fun x => !(decide (x.1 ∈ pr))) rest := by
        rw [List.filter_cons]
        simp [hi]
      rw [hfil]
      simp only [dupGo, if_pos hi]
      exact ih pr hnd2
    · have hfil : List.filter (fun x => !(decide (x.1 ∈ pr))) ((i, p) :: rest) =
          (i, p) :: List.filter (fun x => !(decide (x.1 ∈ pr))) rest := by
        rw [List.filter_cons]
        simp [hi]
      rw [hfil, List.map_cons, greedy_spec_cons]
      simp only [dupGo, if_neg hi]
      have hA : ((rest.filter fun x => !(decide (x.1 ∈ pr))).map Prod.snd).filter
            (fun q => decide (θ ≤ sim p q)) =
          (rest.filter fun jq => !(decide (jq.1 ∈ pr)) && decide (θ ≤ sim p jq.2)).map
            Prod.snd := by
        rw [List.filter_map, List.filter_filter]
        exact congrArg (List.map Prod.snd)
          (List.filter_congr fun x _ => by
            simp only [Function.comp_apply]
            rw [Bool.and_comm])
      have hkey : ∀ x ∈ rest,
          (!(decide (x.1 ∈ pr ++ (rest.filter fun jq =>
              !(decide (jq.1 ∈ pr)) && decide (θ ≤ sim p jq.2)).map Prod.fst))) =
          ((!(decide (x.1 ∈ pr))) && !(decide (θ ≤ sim p x.2))) := by
        intro x hx
        by_cases hxp : x.1 ∈ pr
        · simp [List.mem_append, hxp]
        · by_cases hxs : θ ≤ sim p x.2
          · have hxm : x.1 ∈ (rest.filter fun jq =>
                !(decide (jq.1 ∈ pr)) && decide (θ ≤ sim p jq.2)).map Prod.fst :=
              List.mem_map.2 ⟨x, List.mem_filter.2 ⟨hx, by simp [hxp, hxs]⟩, rfl⟩
            simp [List.mem_append, hxm, hxs]
          · have hxm : x.1 ∉ (rest.filter fun jq =>
                !(decide (jq.1 ∈ pr)) && decide (θ ≤ sim p jq.2)).map Prod.fst := by
              intro hmem
              obtain ⟨y, hy, hyx⟩ := List.mem_map.1 hmem
              have hy2 := List.mem_filter.1 hy
              have hyx2 : y = x := List.inj_on_of_nodup_map hnd2 hy2.1 hx hyx
              rw [hyx2] at hy2
              simp [hxp, hxs] at hy2
            simp [List.mem_append, hxp, hxm, hxs]
      have hB : ((rest.filter fun x => !(decide (x.1 ∈ pr ++ (rest.filter fun jq =>
              !(decide (jq.1 ∈ pr)) && decide (θ ≤ sim p jq.2)).map Prod.fst))).map
            Prod.snd) =
          ((rest.filter fun x => !(decide (x.1 ∈ pr))).map Prod.snd).filter
            (fun q => !(decide (θ ≤ sim p q))) := by
        rw [List.filter_map, List.filter_filter]
        exact congrArg (List.map Prod.snd)
          (List.filter_congr fun x hx => by
            rw [hkey x hx]
            simp only [Function.comp_apply]
            rw [Bool.and_comm])
      rw [hA, isEmpty_map_snd]
      cases hms : (rest.filter fun jq =>
          !(decide (jq.1 ∈ pr)) && decide (θ ≤ sim p jq.2)).isEmpty with
      | true =>
        simp only [hms, if_pos]
        exact ih pr hnd2
      | false =>
        simp only [hms, Bool.false_eq_true, if_neg, not_false_eq_true]
        refine congrArg₂ List.cons rfl ?_
        rw [ih (pr ++ (rest.filter fun jq =>
          !(decide (jq.1 ∈ pr)) && decide (θ ≤ sim p jq.2)).map Prod.fst) hnd2]
        rw [hB]

/-- find_duplicates coincides with the index-free greedy pass of the spec. -/
theorem find_duplicates_eq_greedy (ts : String → String → ℚ)
    (products : List Product) :
    find_duplicates ts products =
      greedy_spec (calculate_similarity ts) similarity_threshold products := by
  rw [find_duplicates,
    dupGo_eq_greedy _ _ products.enum [] (List.nodup_enum_map_fst products)]
  have hf : (products.enum.filter fun x => !(decide (x.1 ∈ ([] : List ℕ)))) =
      products.enum := by
    rw [List.filter_congr (fun x _ => by simp : ∀ x ∈ products.enum,
      (!(decide (x.1 ∈ ([] : List ℕ)))) = true)]
    exact List.filter_true _
  rw [hf, List.enum_map_snd]


attribute [local semireducible] Rat.add Rat.mul Rat.sub Rat.inv in
/-- C1: find_duplicates is the single greedy pass of the spec (records in
input order; each not-yet-grouped record collects every later not-yet-grouped
record whose similarity reaches the threshold, consuming them; no transitive
closure), with similarity the weighted sum
0.4*title + 0.3*brand + 0.2*price + 0.1*specification-overlap and threshold
0.85; a pair at exactly 0.85 is grouped, a pair at 0.8499 is not, and in the
chain scenario the pair (b, c) inside the closed group of a is never
re-evaluated even though its similarity clears the threshold. -/
theorem C1_find_duplicates :
    (∀ (ts : String → String → ℚ) (p1 p2 : Product),
      calculate_similarity ts p1 p2 =
        (4/10) * ts p1.title p2.title + (3/10) * ts p1.brand p2.brand +
        (2/10) * price_similarity p1.current_price p2.current_price +
        (1/10) * specifications_similarity ts p1.specifications p2.specifications) ∧
    similarity_threshold = 85/100 ∧
    (∀ (ts : String → String → ℚ) (products : List Product),
      find_duplicates ts products =
        greedy_spec (calculate_similarity ts) similarity_threshold products) ∧
    (calculate_similarity eq_text_sim dup_a dup_b = 85/100 ∧
     find_duplicates eq_text_sim [dup_a, dup_b] = [[dup_a, dup_b]]) ∧
    (calculate_similarity eq_text_sim dup_a2 dup_c = 8499/10000 ∧
     calculate_similarity eq_text_sim dup_a2 dup_c < similarity_threshold ∧
     find_duplicates eq_text_sim [dup_a2, dup_c] = []) ∧
    (similarity_threshold ≤ calculate_similarity chain_sim chain_a chain_b ∧
     calculate_similarity chain_sim chain_a chain_c < similarity_threshold ∧
     similarity_threshold ≤ calculate_similarity chain_sim chain_b chain_c ∧
     find_duplicates chain_sim [chain_a, chain_b, chain_c] = [[chain_a, chain_b]]) := by
  refine ⟨?_, rfl, find_duplicates_eq_greedy, ⟨by decide, by decide⟩,
    ⟨by decide, by decide, by decide⟩, ⟨by decide, by decide, by decide, by decide⟩⟩
  intro ts p1 p2
  rw [calculate_similarity]
  ring


/-! ## C9: product-page parsing -/

/-- C9: the claim (and spec contract) says parsing never raises and leaves a
field empty when no locator matches.  The chain behaviour holds when no
price selector matches (fields are filled from the first matching locator,
missing fields stay empty), but as soon as any price selector matches an
element, PremiumAmazonScraper._extract_price calls self._extract_price on
the extracted text — dynamic dispatch re-enters the soup-typed override with
a str receiver, which has no select_one, so an AttributeError is raised and
_parse_product_page re-raises it.  (The same shadowing bug is in
_extract_rating and _extract_review_count.) -/
theorem C9_parse_product_page :
    amazon_extract_price ⟨[(".a-price-whole", "$5.00")]⟩ =
      .error "AttributeError: str object has no attribute select_one" ∧
    parse_product_page ⟨[(".a-price-whole", "$5.00")]⟩ =
      .error "AttributeError: str object has no attribute select_one" ∧
    parse_product_page ⟨[("#productTitle", "  My   Product "),
        ("#availability span", " In Stock. ")]⟩ =
      .ok { title := "My Product", availability := some "in_stock" } ∧
    parse_product_page ⟨[]⟩ = .ok { title := "", availability := some "unknown" } := by
  exact ⟨rfl, rfl, rfl, rfl⟩

end Scrapper

